import Mathlib

/-!
Verification of the `atomic_sparse_map` container of the Legion engine
(file `atomic_sparse_map.hpp`), a sparse-set associative container.

The container state is embedded shallowly:
* the two dense `std::vector` members become Lean lists whose length equals
  the tracked capacity (the C++ vectors are only ever grown via `resize`, so
  their length always matches `m_capacity`);
* the `std::unordered_map<key_type, size_type>` sparse member becomes an
  association list `List (K × Nat)`; its `operator[]` (which default-inserts
  a zero entry for an absent key), `.at` (which throws for an absent key) and
  `.count` are modelled as separate functions;
* the `transferable_atomic<value_type>` value cells become plain values
  (an atomic `store` replaces the held value, `load` reads it);
* member functions that mutate the state return the updated state, and
  functions that throw `std::out_of_range` return `Except String`.

Lock acquisitions performed by the member functions are recorded separately
by trace functions (`insert_locks`, `erase_locks`, `reserve_locks`,
`clear_locks`), mirroring which `readonly_guard` / `readwrite_guard` objects
each source path constructs.
-/

/-- Lock acquisition modes of `args::core::async::readonly_rw_spinlock`:
`readonly_guard` acquires shared access, `readwrite_guard` exclusive access. -/
inductive LockMode where
  | shared : LockMode
  | exclusive : LockMode
deriving DecidableEq, Repr

/-- Lookup in the sparse table: `std::unordered_map::find`-style access,
returning the mapped index when the key has an entry. -/
def sparse_find {K : Type} [DecidableEq K] : List (K × Nat) → K → Option Nat
  | [], _ => none
  | (k', v) :: t, k => if k' = k then some v else sparse_find t k

/-- Read access `m_sparse[key]` on the `std::unordered_map`: returns the
mapped index, default-inserting a value-initialized entry `(key, 0)` when the
key has no entry yet. Returns the read value together with the updated table. -/
def sparse_idx {K : Type} [DecidableEq K] (s : List (K × Nat)) (k : K) :
    Nat × List (K × Nat) :=
  match sparse_find s k with
  | some v => (v, s)
  | none => (0, s ++ [(k, 0)])

/-- Write access `m_sparse[key] = v` on the `std::unordered_map`: replaces the
entry when present, inserts it otherwise. -/
def sparse_set {K : Type} [DecidableEq K] : List (K × Nat) → K → Nat → List (K × Nat)
  | [], k, v => [(k, v)]
  | (k', v') :: t, k, v => if k' = k then (k, v) :: t else (k', v') :: sparse_set t k v

/-- `m_sparse.count(key)`: number of entries for the key (0 or 1). -/
def sparse_count {K : Type} [DecidableEq K] (s : List (K × Nat)) (k : K) : Nat :=
  match sparse_find s k with
  | some _ => 1
  | none => 0

/-- `std::vector::resize(n)`: truncates to `n` elements, or appends
value-initialized elements until the length is `n`. -/
def vector_resize {α : Type} (l : List α) (n : Nat) (d : α) : List α :=
  if n ≤ l.length then l.take n else l ++ List.replicate (n - l.length) d

/-- State of `args::core::atomic_sparse_map<key_type, value_type>`:
the two parallel dense containers, the sparse table, and the atomically
maintained size and capacity counters. -/
structure atomic_sparse_map (K V : Type) where
  m_dense_value : List V
  m_dense_key : List K
  m_sparse : List (K × Nat)
  m_size : Nat
  m_capacity : Nat
deriving Repr

namespace atomic_sparse_map

variable {K V : Type} [DecidableEq K] [Inhabited K] [Inhabited V]

/-- A default-constructed map: empty containers, size 0, capacity 0. -/
def empty (K V : Type) : atomic_sparse_map K V :=
  { m_dense_value := [], m_dense_key := [], m_sparse := [], m_size := 0, m_capacity := 0 }

/-- `size()`: acquire-load of `m_size`. -/
def size (m : atomic_sparse_map K V) : Nat := m.m_size

/-- `capacity()`: acquire-load of `m_capacity`. -/
def capacity (m : atomic_sparse_map K V) : Nat := m.m_capacity

/-- `empty()`: whether `m_size` is 0. -/
def isEmpty (m : atomic_sparse_map K V) : Bool := m.m_size = 0

/-- `clear()`: stores 0 into `m_size`; touches nothing else. -/
def clear (m : atomic_sparse_map K V) : atomic_sparse_map K V :=
  { m with m_size := 0 }

/-- `reserve(size)`: when the requested size exceeds the capacity, resizes
both dense containers to that length and stores the new capacity. -/
def reserve (m : atomic_sparse_map K V) (n : Nat) : atomic_sparse_map K V :=
  if n > m.m_capacity then
    { m with
      m_dense_value := vector_resize m.m_dense_value n default
      m_dense_key := vector_resize m.m_dense_key n default
      m_capacity := n }
  else m

/-- The non-const `contains(key)`: evaluates
`m_sparse[key] >= 0 && m_sparse[key] < m_size && m_dense_key[m_sparse[key]] == key`.
The `m_sparse[key]` reads go through `unordered_map::operator[]`, so a key
without an entry gets a zero entry default-inserted; `size_type` is unsigned,
so the `>= 0` conjunct is always true. Returns the boolean together with the
state updated by that side effect. -/
def contains (m : atomic_sparse_map K V) (k : K) : Bool × atomic_sparse_map K V :=
  let r := sparse_idx m.m_sparse k
  (decide (r.1 < m.m_size) && decide (m.m_dense_key.getD r.1 default = k),
    { m with m_sparse := r.2 })

/-- The const `contains(key)`: evaluates
`m_sparse.count(key) && m_sparse.at(key) >= 0 && m_sparse.at(key) < m_size
&& m_dense_key[m_sparse.at(key)] == key`; no side effect on the table. -/
def contains_const (m : atomic_sparse_map K V) (k : K) : Bool :=
  match sparse_find m.m_sparse k with
  | none => false
  | some i => decide (i < m.m_size) && decide (m.m_dense_key.getD i default = k)

/-- `insert(key, val)`: when the (non-const) `contains` check fails, grows by
one slot if `m_size >= m_capacity`, writes the value and the key at dense
index `m_size`, records `m_sparse[key] = m_size`, increments `m_size`, and
returns the iterator to the new entry (its dense index) with `true`.
Otherwise returns `end()` (dense index `m_size`) with `false`. -/
def insert (m : atomic_sparse_map K V) (k : K) (v : V) :
    atomic_sparse_map K V × Nat × Bool :=
  let c := m.contains k
  if c.1 then (c.2, c.2.m_size, false)
  else
    let m1 := if c.2.m_size ≥ c.2.m_capacity then c.2.reserve (c.2.m_size + 1) else c.2
    ({ m1 with
        m_dense_value := m1.m_dense_value.set m1.m_size v
        m_dense_key := m1.m_dense_key.set m1.m_size k
        m_sparse := sparse_set m1.m_sparse k m1.m_size
        m_size := m1.m_size + 1 },
      m1.m_size, true)

/-- `emplace(key, arguments...)`: identical to `insert` except that the stored
value is constructed in place from the arguments; `v` stands for the value
`value_type(arguments...)`. -/
def emplace (m : atomic_sparse_map K V) (k : K) (v : V) :
    atomic_sparse_map K V × Nat × Bool :=
  let c := m.contains k
  if c.1 then (c.2, c.2.m_size, false)
  else
    let m1 := if c.2.m_size ≥ c.2.m_capacity then c.2.reserve (c.2.m_size + 1) else c.2
    ({ m1 with
        m_dense_value := m1.m_dense_value.set m1.m_size v
        m_dense_key := m1.m_dense_key.set m1.m_size k
        m_sparse := sparse_set m1.m_sparse k m1.m_size
        m_size := m1.m_size + 1 },
      m1.m_size, true)

/-- The mutable `operator[](key)`: when the (non-const) `contains` check
fails, performs the same insertion as `insert` with a value-initialized
`value_type()`, then returns `m_dense_value[m_sparse[key]]` — modelled as the
final state together with the dense index and the value of the referenced
cell. -/
def opIndex (m : atomic_sparse_map K V) (k : K) :
    atomic_sparse_map K V × Nat × V :=
  let c := m.contains k
  let m1 :=
    if c.1 then c.2
    else
      let m2 := if c.2.m_size ≥ c.2.m_capacity then c.2.reserve (c.2.m_size + 1) else c.2
      { m2 with
          m_dense_value := m2.m_dense_value.set m2.m_size (default : V)
          m_dense_key := m2.m_dense_key.set m2.m_size k
          m_sparse := sparse_set m2.m_sparse k m2.m_size
          m_size := m2.m_size + 1 }
  let r := sparse_idx m1.m_sparse k
  ({ m1 with m_sparse := r.2 }, r.1, m1.m_dense_value.getD r.1 default)

/-- The const `operator[](key)`: throws `std::out_of_range` when the const
`contains` check fails, otherwise returns `m_dense_value[m_sparse.at(key)]`. -/
def opIndex_const (m : atomic_sparse_map K V) (k : K) : Except String V :=
  if m.contains_const k then
    match sparse_find m.m_sparse k with
    | some i => Except.ok (m.m_dense_value.getD i default)
    | none => Except.error ("unordered_map::at")
  else Except.error ("Sparse map does not contain this key and is non modifiable.")

/-- The non-const `get(key)`: throws `std::out_of_range` when the (non-const)
`contains` check fails — the side effect of that check on the sparse table
persists — otherwise returns `m_dense_value[m_sparse[key]]`. -/
def get (m : atomic_sparse_map K V) (k : K) :
    atomic_sparse_map K V × Except String V :=
  let c := m.contains k
  if c.1 then
    let r := sparse_idx c.2.m_sparse k
    ({ c.2 with m_sparse := r.2 }, Except.ok (c.2.m_dense_value.getD r.1 default))
  else (c.2, Except.error ("Sparse map does not contain this key."))

/-- The const `get(key)`: throws `std::out_of_range` when the const
`contains` check fails, otherwise returns `m_dense_value[m_sparse.at(key)]`;
no side effects. -/
def get_const (m : atomic_sparse_map K V) (k : K) : Except String V :=
  if m.contains_const k then
    match sparse_find m.m_sparse k with
    | some i => Except.ok (m.m_dense_value.getD i default)
    | none => Except.error ("unordered_map::at")
  else Except.error ("Sparse map does not contain this key and is non modifiable.")

/-- `erase(key)`: when the (non-const) `contains` check succeeds, overwrites
the dense slot `m_sparse[key]` of both dense containers with the entries at
slot `m_size - 1`, redirects the sparse entry of the key now found at slot
`m_size - 1` to the freed index, decrements `m_size` and returns true;
otherwise returns false (with the side effect of the `contains` check). -/
def erase (m : atomic_sparse_map K V) (k : K) :
    atomic_sparse_map K V × Bool :=
  let c := m.contains k
  if c.1 then
    let m0 := c.2
    let i := (sparse_idx m0.m_sparse k).1
    let last := m0.m_size - 1
    let dv := m0.m_dense_value.set i (m0.m_dense_value.getD last default)
    let dk := m0.m_dense_key.set i (m0.m_dense_key.getD last default)
    let sp := sparse_set m0.m_sparse (dk.getD last default) i
    ({ m0 with m_dense_value := dv, m_dense_key := dk, m_sparse := sp, m_size := last },
      true)
  else (c.2, false)

/-- A key is live when its sparse entry is a dense index below `m_size` whose
dense-key slot holds the key back (the §3 invariant of the specification). -/
def isLive (m : atomic_sparse_map K V) (k : K) : Prop :=
  ∃ i, sparse_find m.m_sparse k = some i ∧ i < m.m_size ∧
    m.m_dense_key.getD i default = k

/-- Well-formedness of a reachable state: capacity equals the lengths of both
dense containers, size is at most capacity, and every dense slot below size
is pointed back at by the sparse entry of its key. -/
def WF (m : atomic_sparse_map K V) : Prop :=
  m.m_capacity = m.m_dense_value.length ∧
  m.m_capacity = m.m_dense_key.length ∧
  m.m_size ≤ m.m_capacity ∧
  ∀ i, i < m.m_size → sparse_find m.m_sparse (m.m_dense_key.getD i default) = some i

/-- Lock acquisitions of `clear()`: the body is a single atomic release store
into `m_size`; no guard object is constructed. -/
def clear_locks : List LockMode := []

/-- Lock acquisitions of `reserve(n)`: a `readwrite_guard` only on the
growing path. -/
def reserve_locks (m : atomic_sparse_map K V) (n : Nat) : List LockMode :=
  if n > m.m_capacity then [LockMode.exclusive] else []

/-- Lock acquisitions of the non-const `contains(key)`: one `readonly_guard`. -/
def contains_locks : List LockMode := [LockMode.shared]

/-- Lock acquisitions of `insert(key, val)`: the `contains` check, then on
the inserting path the conditional `reserve` followed by a `readwrite_guard`;
on the duplicate path the `end()` call acquires a `readonly_guard`. -/
def insert_locks (m : atomic_sparse_map K V) (k : K) : List LockMode :=
  let c := m.contains k
  contains_locks ++
    (if c.1 then [LockMode.shared]
     else
       (if c.2.m_size ≥ c.2.m_capacity then reserve_locks c.2 (c.2.m_size + 1) else []) ++
         [LockMode.exclusive])

/-- Lock acquisitions of `erase(key)`: the `contains` check, then a
`readwrite_guard` on the erasing path. -/
def erase_locks (m : atomic_sparse_map K V) (k : K) : List LockMode :=
  let c := m.contains k
  contains_locks ++ (if c.1 then [LockMode.exclusive] else [])

end atomic_sparse_map

/-- Structural operations on the container, used to state properties of
arbitrary operation sequences. -/
inductive Op (K V : Type) where
  | insert (k : K) (v : V)
  | emplace (k : K) (v : V)
  | opIndex (k : K)
  | erase (k : K)
  | clear : Op K V
  | reserve (n : Nat)
  | contains (k : K)
  | get (k : K)

/-- Apply one operation to a container state, keeping only the state. -/
def applyOp {K V : Type} [DecidableEq K] [Inhabited K] [Inhabited V]
    (o : Op K V) (m : atomic_sparse_map K V) : atomic_sparse_map K V :=
  match o with
  | Op.insert k v => (m.insert k v).1
  | Op.emplace k v => (m.emplace k v).1
  | Op.opIndex k => (m.opIndex k).1
  | Op.erase k => (m.erase k).1
  | Op.clear => m.clear
  | Op.reserve n => m.reserve n
  | Op.contains k => (m.contains k).2
  | Op.get k => (m.get k).1

/-- Apply a sequence of operations from left to right. -/
def applyOps {K V : Type} [DecidableEq K] [Inhabited K] [Inhabited V]
    (l : List (Op K V)) (m : atomic_sparse_map K V) : atomic_sparse_map K V :=
  match l with
  | [] => m
  | o :: t => applyOps t (applyOp o m)

instance {K V : Type} [DecidableEq K] [Inhabited K] [Inhabited V]
    (m : atomic_sparse_map K V) : Decidable (atomic_sparse_map.WF m) := by
  unfold atomic_sparse_map.WF; infer_instance

/-- A concrete example state used by the evaluation theorems: the map
{1 ↦ 10, 2 ↦ 20, 3 ↦ 30}, exactly the state produced by three `insert`
calls on a default-constructed `atomic_sparse_map Nat Nat`. -/
def exMap : atomic_sparse_map Nat Nat :=
  { m_dense_value := [10, 20, 30]
    m_dense_key := [1, 2, 3]
    m_sparse := [(1, 0), (2, 1), (3, 2)]
    m_size := 3
    m_capacity := 3 }

namespace atomic_sparse_map

variable {K V : Type} [DecidableEq K] [Inhabited K] [Inhabited V]

theorem sparse_find_set_self (s : List (K × Nat)) (k : K) (v : Nat) :
    sparse_find (sparse_set s k v) k = some v := by
  induction s with
  | nil => simp [sparse_set, sparse_find]
  | cons p t ih =>
    obtain ⟨k1, v1⟩ := p
    by_cases h : k1 = k
    · simp [sparse_set, h, sparse_find]
    · simp [sparse_set, h, sparse_find, ih]

theorem sparse_find_set_ne (s : List (K × Nat)) (k k2 : K) (v : Nat) (h : k2 ≠ k) :
    sparse_find (sparse_set s k v) k2 = sparse_find s k2 := by
  have h2 : ¬ k = k2 := Ne.symm h
  induction s with
  | nil => simp [sparse_set, sparse_find, h2]
  | cons p t ih =>
    obtain ⟨k1, v1⟩ := p
    by_cases h1 : k1 = k
    · subst h1
      simp [sparse_set, sparse_find, h2]
    · simp only [sparse_set, if_neg h1, sparse_find]
      by_cases h3 : k1 = k2
      · simp [h3]
      · simp [h3, ih]

theorem sparse_find_append_some (s t : List (K × Nat)) (k : K) (v : Nat)
    (h : sparse_find s k = some v) : sparse_find (s ++ t) k = some v := by
  induction s with
  | nil => simp [sparse_find] at h
  | cons p s1 ih =>
    obtain ⟨k1, v1⟩ := p
    by_cases h1 : k1 = k
    · simp_all [sparse_find]
    · simp_all [sparse_find]

theorem sparse_find_append_none (s t : List (K × Nat)) (k : K)
    (h : sparse_find s k = none) : sparse_find (s ++ t) k = sparse_find t k := by
  induction s with
  | nil => simp
  | cons p s1 ih =>
    obtain ⟨k1, v1⟩ := p
    by_cases h1 : k1 = k
    · simp_all [sparse_find]
    · simp_all [sparse_find]

theorem sparse_set_length_of_found (s : List (K × Nat)) (k : K) (v : Nat)
    (h : (sparse_find s k).isSome) : (sparse_set s k v).length = s.length := by
  induction s with
  | nil => simp [sparse_find] at h
  | cons p s1 ih =>
    obtain ⟨k1, v1⟩ := p
    by_cases h1 : k1 = k
    · simp [sparse_set, h1]
    · simp only [sparse_find, if_neg h1] at h
      simp [sparse_set, if_neg h1, ih h]

theorem list_getD_set_self {α : Type} (l : List α) (i : Nat) (a d : α)
    (h : i < l.length) : (l.set i a).getD i d = a := by
  rw [List.getD_eq_getD_get?, List.get?_set_eq_of_lt a h]
  rfl

theorem list_getD_set_ne {α : Type} (l : List α) (i j : Nat) (a d : α)
    (h : i ≠ j) : (l.set i a).getD j d = l.getD j d := by
  rw [List.getD_eq_getD_get?, List.getD_eq_getD_get?, List.get?_set_ne a _ h]

theorem vector_resize_length {α : Type} (l : List α) (n : Nat) (d : α) :
    (vector_resize l n d).length = n := by
  unfold vector_resize
  split
  · simp only [List.length_take]
    omega
  · simp only [List.length_append, List.length_replicate]
    omega

theorem vector_resize_getD {α : Type} (l : List α) (n : Nat) (d d2 : α) (i : Nat)
    (hi : i < l.length) (hn : l.length ≤ n) :
    (vector_resize l n d).getD i d2 = l.getD i d2 := by
  unfold vector_resize
  split
  · rename_i h
    have : n = l.length := Nat.le_antisymm h hn
    subst this
    rw [List.take_length]
  · exact List.getD_append _ _ _ _ hi

theorem contains_snd_found (m : atomic_sparse_map K V) (k : K) (j : Nat)
    (h : sparse_find m.m_sparse k = some j) : (m.contains k).2 = m := by
  simp [contains, sparse_idx, h]

theorem contains_snd_none (m : atomic_sparse_map K V) (k : K)
    (h : sparse_find m.m_sparse k = none) :
    (m.contains k).2 = { m with m_sparse := m.m_sparse ++ [(k, 0)] } := by
  simp [contains, sparse_idx, h]

theorem contains_fst_found (m : atomic_sparse_map K V) (k : K) (j : Nat)
    (h : sparse_find m.m_sparse k = some j) :
    (m.contains k).1 =
      (decide (j < m.m_size) && decide (m.m_dense_key.getD j default = k)) := by
  simp [contains, sparse_idx, h]

theorem contains_fst_none (m : atomic_sparse_map K V) (k : K)
    (h : sparse_find m.m_sparse k = none) :
    (m.contains k).1 =
      (decide (0 < m.m_size) && decide (m.m_dense_key.getD 0 default = k)) := by
  simp [contains, sparse_idx, h]

theorem contains_snd_size (m : atomic_sparse_map K V) (k : K) :
    (m.contains k).2.m_size = m.m_size := rfl

theorem contains_snd_capacity (m : atomic_sparse_map K V) (k : K) :
    (m.contains k).2.m_capacity = m.m_capacity := rfl

theorem contains_snd_dense_value (m : atomic_sparse_map K V) (k : K) :
    (m.contains k).2.m_dense_value = m.m_dense_value := rfl

theorem contains_snd_dense_key (m : atomic_sparse_map K V) (k : K) :
    (m.contains k).2.m_dense_key = m.m_dense_key := rfl

theorem contains_snd_find_self (m : atomic_sparse_map K V) (k : K) :
    sparse_find (m.contains k).2.m_sparse k = some ((sparse_idx m.m_sparse k).1) := by
  cases h : sparse_find m.m_sparse k with
  | some j =>
    rw [contains_snd_found m k j h]
    simp [sparse_idx, h]
  | none =>
    rw [contains_snd_none m k h]
    simp only [sparse_idx, h]
    rw [sparse_find_append_none _ _ _ h]
    simp [sparse_find]

theorem sparse_idx_fst_eq (m : atomic_sparse_map K V) (k : K) :
    (sparse_idx (m.contains k).2.m_sparse k).1 = (sparse_idx m.m_sparse k).1 := by
  rw [show sparse_idx (m.contains k).2.m_sparse k =
      ((sparse_idx (m.contains k).2.m_sparse k).1, (sparse_idx (m.contains k).2.m_sparse k).2)
      from rfl]
  simp [sparse_idx, contains_snd_find_self m k]

theorem contains_fst_true_iff (m : atomic_sparse_map K V) (k : K) (hwf : WF m) :
    (m.contains k).1 = true ↔ isLive m k := by
  obtain ⟨h1, h2, h3, h4⟩ := hwf
  cases h : sparse_find m.m_sparse k with
  | some j =>
    rw [contains_fst_found m k j h]
    simp only [Bool.and_eq_true, decide_eq_true_eq]
    constructor
    · rintro ⟨ha, hb⟩
      exact ⟨j, h, ha, hb⟩
    · rintro ⟨i, hi, ha, hb⟩
      rw [h] at hi
      injection hi with e
      subst e
      exact ⟨ha, hb⟩
  | none =>
    rw [contains_fst_none m k h]
    simp only [Bool.and_eq_true, decide_eq_true_eq]
    constructor
    · rintro ⟨ha, hb⟩
      have hc := h4 0 ha
      rw [hb, h] at hc
      exact Option.noConfusion hc
    · rintro ⟨i, hi, _, _⟩
      rw [h] at hi
      exact Option.noConfusion hi

theorem contains_fst_false_not_live (m : atomic_sparse_map K V) (k : K) (j : Nat)
    (hc : (m.contains k).1 = false)
    (hfind : sparse_find (m.contains k).2.m_sparse k = some j) :
    ¬ (j < m.m_size ∧ m.m_dense_key.getD j default = k) := by
  have hj : j = (sparse_idx m.m_sparse k).1 := by
    rw [contains_snd_find_self m k] at hfind
    exact (Option.some.inj hfind).symm
  cases h : sparse_find m.m_sparse k with
  | some j0 =>
    have hjj : j = j0 := by simp [hj, sparse_idx, h]
    subst hjj
    intro hcon
    have ht : (m.contains k).1 = true := by
      rw [contains_fst_found m k j h, decide_eq_true hcon.1, decide_eq_true hcon.2]
      rfl
    rw [hc] at ht
    exact Bool.noConfusion ht
  | none =>
    have hjj : j = 0 := by simp [hj, sparse_idx, h]
    subst hjj
    intro hcon
    have ht : (m.contains k).1 = true := by
      rw [contains_fst_none m k h, decide_eq_true hcon.1, decide_eq_true hcon.2]
      rfl
    rw [hc] at ht
    exact Bool.noConfusion ht

theorem contains_const_eq_contains (m : atomic_sparse_map K V) (k : K) (hwf : WF m) :
    m.contains_const k = (m.contains k).1 := by
  cases h : sparse_find m.m_sparse k with
  | some j =>
    rw [contains_fst_found m k j h]
    simp [contains_const, h]
  | none =>
    rw [contains_fst_none m k h]
    simp only [contains_const, h]
    by_cases h1 : 0 < m.m_size
    · by_cases h2 : m.m_dense_key.getD 0 default = k
      · exfalso
        have hc := hwf.2.2.2 0 h1
        rw [h2, h] at hc
        exact Option.noConfusion hc
      · rw [decide_eq_false h2, Bool.and_false]
    · rw [decide_eq_false h1, Bool.false_and]

theorem reserve_size (m : atomic_sparse_map K V) (n : Nat) :
    (m.reserve n).m_size = m.m_size := by
  unfold reserve
  split <;> rfl

theorem reserve_sparse (m : atomic_sparse_map K V) (n : Nat) :
    (m.reserve n).m_sparse = m.m_sparse := by
  unfold reserve
  split <;> rfl

theorem reserve_capacity_ge (m : atomic_sparse_map K V) (n : Nat) :
    m.m_capacity ≤ (m.reserve n).m_capacity := by
  unfold reserve
  split
  · rename_i h
    exact Nat.le_of_lt h
  · exact Nat.le_refl _

theorem reserve_capacity_of_gt (m : atomic_sparse_map K V) (n : Nat)
    (h : n > m.m_capacity) : (m.reserve n).m_capacity = n := by
  unfold reserve
  rw [if_pos h]

theorem reserve_getD_key (m : atomic_sparse_map K V) (n i : Nat) (d : K)
    (hwf : WF m) (hi : i < m.m_dense_key.length) :
    (m.reserve n).m_dense_key.getD i d = m.m_dense_key.getD i d := by
  obtain ⟨h1, h2, h3, h4⟩ := hwf
  unfold reserve
  split
  · rename_i h
    exact vector_resize_getD _ _ _ _ _ hi (by omega)
  · rfl

theorem reserve_getD_value (m : atomic_sparse_map K V) (n i : Nat) (d : V)
    (hwf : WF m) (hi : i < m.m_dense_value.length) :
    (m.reserve n).m_dense_value.getD i d = m.m_dense_value.getD i d := by
  obtain ⟨h1, h2, h3, h4⟩ := hwf
  unfold reserve
  split
  · rename_i h
    exact vector_resize_getD _ _ _ _ _ hi (by omega)
  · rfl

theorem wf_clear (m : atomic_sparse_map K V) (h : WF m) : WF m.clear := by
  obtain ⟨h1, h2, h3, h4⟩ := h
  exact ⟨h1, h2, Nat.zero_le _, fun i hi => absurd hi (Nat.not_lt_zero i)⟩

theorem wf_reserve (m : atomic_sparse_map K V) (n : Nat) (h : WF m) :
    WF (m.reserve n) := by
  obtain ⟨h1, h2, h3, h4⟩ := h
  unfold reserve
  split
  · rename_i hn
    refine ⟨(vector_resize_length _ _ _).symm, (vector_resize_length _ _ _).symm, ?_, ?_⟩
    · exact Nat.le_of_lt (Nat.lt_of_le_of_lt h3 hn)
    · intro i hi
      have hi2 : i < m.m_size := hi
      rw [vector_resize_getD _ _ _ _ _ (by omega) (by omega)]
      exact h4 i hi2
  · exact ⟨h1, h2, h3, h4⟩

theorem wf_contains (m : atomic_sparse_map K V) (k : K) (h : WF m) :
    WF (m.contains k).2 := by
  obtain ⟨h1, h2, h3, h4⟩ := h
  cases hf : sparse_find m.m_sparse k with
  | some j =>
    rw [contains_snd_found m k j hf]
    exact ⟨h1, h2, h3, h4⟩
  | none =>
    rw [contains_snd_none m k hf]
    exact ⟨h1, h2, h3, fun i hi => sparse_find_append_some _ _ _ _ (h4 i hi)⟩

theorem insert_fresh_spec (m : atomic_sparse_map K V) (k : K) (v : V)
    (hwf : WF m) (hc : (m.contains k).1 = false) :
    (m.insert k v).2.2 = true ∧
    (m.insert k v).2.1 = m.m_size ∧
    (m.insert k v).1.m_size = m.m_size + 1 ∧
    (m.insert k v).1.m_dense_value.getD m.m_size default = v ∧
    (m.insert k v).1.m_dense_key.getD m.m_size default = k ∧
    sparse_find (m.insert k v).1.m_sparse k = some m.m_size ∧
    m.m_capacity ≤ (m.insert k v).1.m_capacity ∧
    WF (m.insert k v).1 := by
  have hwf0 : WF (m.contains k).2 := wf_contains m k hwf
  set m0 := (m.contains k).2 with hm0
  set m1 := (if m0.m_size ≥ m0.m_capacity then m0.reserve (m0.m_size + 1) else m0) with hm1
  have h0size : m0.m_size = m.m_size := rfl
  have h0cap : m0.m_capacity = m.m_capacity := rfl
  have h0dk : m0.m_dense_key = m.m_dense_key := rfl
  have h0dv : m0.m_dense_value = m.m_dense_value := rfl
  have hins : m.insert k v =
      ({ m1 with
          m_dense_value := m1.m_dense_value.set m1.m_size v
          m_dense_key := m1.m_dense_key.set m1.m_size k
          m_sparse := sparse_set m1.m_sparse k m1.m_size
          m_size := m1.m_size + 1 },
        m1.m_size, true) := by
    simp only [atomic_sparse_map.insert, hc]
    rfl
  have hwf1 : WF m1 := by
    rw [hm1]
    by_cases hge : m0.m_size ≥ m0.m_capacity
    · rw [if_pos hge]
      exact wf_reserve m0 _ hwf0
    · rw [if_neg hge]
      exact hwf0
  have h1size : m1.m_size = m.m_size := by
    rw [hm1]
    by_cases hge : m0.m_size ≥ m0.m_capacity
    · rw [if_pos hge, reserve_size, h0size]
    · rw [if_neg hge, h0size]
  have h1sparse : m1.m_sparse = m0.m_sparse := by
    rw [hm1]
    by_cases hge : m0.m_size ≥ m0.m_capacity
    · rw [if_pos hge, reserve_sparse]
    · rw [if_neg hge]
  have h1room : m1.m_size < m1.m_capacity := by
    rw [hm1]
    by_cases hge : m0.m_size ≥ m0.m_capacity
    · rw [if_pos hge, reserve_size, reserve_capacity_of_gt m0 (m0.m_size + 1) (by omega)]
      omega
    · rw [if_neg hge]
      omega
  have h1cap : m.m_capacity ≤ m1.m_capacity := by
    rw [hm1]
    by_cases hge : m0.m_size ≥ m0.m_capacity
    · rw [if_pos hge]
      rw [← h0cap]
      exact reserve_capacity_ge m0 _
    · rw [if_neg hge, h0cap]
  have h1dk : ∀ i : Nat, ∀ d : K, i < m.m_size →
      m1.m_dense_key.getD i d = m.m_dense_key.getD i d := by
    intro i d hi
    rw [hm1]
    by_cases hge : m0.m_size ≥ m0.m_capacity
    · rw [if_pos hge, reserve_getD_key m0 _ i d hwf0 (by
        have := hwf0.2.1
        have := hwf0.2.2.1
        rw [h0dk] at *
        omega), h0dk]
    · rw [if_neg hge, h0dk]
  have h1len_v : m1.m_dense_value.length = m1.m_capacity := hwf1.1.symm
  have h1len_k : m1.m_dense_key.length = m1.m_capacity := hwf1.2.1.symm
  rw [hins]
  dsimp only
  refine ⟨rfl, h1size, ?_, ?_, ?_, ?_, ?_, ?_⟩
  · exact congrArg (· + 1) h1size
  · rw [← h1size]
    exact list_getD_set_self _ _ _ _ (by omega)
  · rw [← h1size]
    exact list_getD_set_self _ _ _ _ (by omega)
  · rw [← h1size]
    exact sparse_find_set_self _ _ _
  · exact h1cap
  · refine ⟨?_, ?_, ?_, ?_⟩
    · show m1.m_capacity = (m1.m_dense_value.set m1.m_size v).length
      rw [List.length_set]
      exact hwf1.1
    · show m1.m_capacity = (m1.m_dense_key.set m1.m_size k).length
      rw [List.length_set]
      exact hwf1.2.1
    · show m1.m_size + 1 ≤ m1.m_capacity
      omega
    · intro i hi
      have hi2 : i < m1.m_size + 1 := hi
      show sparse_find (sparse_set m1.m_sparse k m1.m_size)
          ((m1.m_dense_key.set m1.m_size k).getD i default) = some i
      rcases Nat.lt_or_ge i m1.m_size with hlt | hge2
      · have hkey : (m1.m_dense_key.set m1.m_size k).getD i default =
            m1.m_dense_key.getD i default :=
          list_getD_set_ne _ _ _ _ _ (by omega)
        rw [hkey]
        have h4 := hwf1.2.2.2 i hlt
        have hne : m1.m_dense_key.getD i default ≠ k := by
          intro heq
          rw [heq] at h4
          have hnl := contains_fst_false_not_live m k i hc (by
            rw [← h1sparse]
            exact h4)
          apply hnl
          constructor
          · omega
          · rw [← h1dk i default (by omega), heq]
        rw [sparse_find_set_ne _ _ _ _ hne]
        exact h4
      · have hieq : i = m1.m_size := by omega
        subst hieq
        rw [list_getD_set_self _ _ _ _ (by omega)]
        exact sparse_find_set_self _ _ _

theorem emplace_eq_insert (m : atomic_sparse_map K V) (k : K) (v : V) :
    m.emplace k v = m.insert k v := rfl

theorem sparse_idx_self_snd (m : atomic_sparse_map K V) (k : K) :
    (sparse_idx (m.contains k).2.m_sparse k).2 = (m.contains k).2.m_sparse := by
  simp [sparse_idx, contains_snd_find_self m k]

theorem sparse_idx_of_found (s : List (K × Nat)) (k : K) (j : Nat)
    (h : sparse_find s k = some j) : sparse_idx s k = (j, s) := by
  simp [sparse_idx, h]

theorem get_fst_state (m : atomic_sparse_map K V) (k : K) :
    (m.get k).1 = (m.contains k).2 := by
  cases hc : (m.contains k).1 with
  | true =>
    simp only [atomic_sparse_map.get, hc]
    simp [sparse_idx_self_snd m k]
  | false =>
    simp only [atomic_sparse_map.get, hc]
    simp

theorem get_snd_true (m : atomic_sparse_map K V) (k : K)
    (hc : (m.contains k).1 = true) :
    (m.get k).2 = Except.ok (m.m_dense_value.getD (sparse_idx m.m_sparse k).1 default) := by
  simp only [atomic_sparse_map.get, hc]
  simp only [sparse_idx_fst_eq m k]
  simp
  rfl

theorem get_snd_false (m : atomic_sparse_map K V) (k : K)
    (hc : (m.contains k).1 = false) :
    (m.get k).2 = Except.error ("Sparse map does not contain this key.") := by
  simp only [atomic_sparse_map.get, hc]
  simp

theorem get_present (m : atomic_sparse_map K V) (k : K) (i : Nat)
    (hfind : sparse_find m.m_sparse k = some i) (hi : i < m.m_size)
    (hk : m.m_dense_key.getD i default = k) :
    (m.get k).1 = m ∧
    (m.get k).2 = Except.ok (m.m_dense_value.getD i default) := by
  have hc : (m.contains k).1 = true := by
    rw [contains_fst_found m k i hfind, decide_eq_true hi, decide_eq_true hk]
    rfl
  constructor
  · rw [get_fst_state m k, contains_snd_found m k i hfind]
  · rw [get_snd_true m k hc]
    simp [sparse_idx, hfind]

theorem opIndex_present (m : atomic_sparse_map K V) (k : K) (i : Nat)
    (hfind : sparse_find m.m_sparse k = some i) (hi : i < m.m_size)
    (hk : m.m_dense_key.getD i default = k) :
    m.opIndex k = (m, i, m.m_dense_value.getD i default) := by
  have hc : (m.contains k).1 = true := by
    rw [contains_fst_found m k i hfind, decide_eq_true hi, decide_eq_true hk]
    rfl
  have hsnd : (m.contains k).2 = m := contains_snd_found m k i hfind
  simp only [atomic_sparse_map.opIndex, hc, hsnd]
  simp [sparse_idx, hfind]

theorem opIndex_fresh_spec (m : atomic_sparse_map K V) (k : K)
    (hwf : WF m) (hc : (m.contains k).1 = false) :
    (m.opIndex k).1 = (m.insert k (default : V)).1 ∧
    (m.opIndex k).2.1 = m.m_size ∧
    (m.opIndex k).2.2 = (default : V) := by
  obtain ⟨_, _, hsize, hval, _, hfind, _, hwff⟩ := insert_fresh_spec m k (default : V) hwf hc
  have heq : m.opIndex k =
      ({ (m.insert k (default : V)).1 with
          m_sparse := (sparse_idx (m.insert k (default : V)).1.m_sparse k).2 },
        (sparse_idx (m.insert k (default : V)).1.m_sparse k).1,
        (m.insert k (default : V)).1.m_dense_value.getD
          (sparse_idx (m.insert k (default : V)).1.m_sparse k).1 default) := by
    simp only [atomic_sparse_map.opIndex, atomic_sparse_map.insert, hc]
    rfl
  have hidx : sparse_idx (m.insert k (default : V)).1.m_sparse k =
      (m.m_size, (m.insert k (default : V)).1.m_sparse) :=
    sparse_idx_of_found _ _ _ hfind
  rw [heq, hidx]
  exact ⟨rfl, rfl, hval⟩

theorem contains_fst_def (m : atomic_sparse_map K V) (k : K) :
    (m.contains k).1 =
      (decide ((sparse_idx m.m_sparse k).1 < m.m_size) &&
        decide (m.m_dense_key.getD (sparse_idx m.m_sparse k).1 default = k)) := rfl

theorem sparse_idx_fst_stable (m : atomic_sparse_map K V) (k k2 : K) :
    (sparse_idx (m.contains k).2.m_sparse k2).1 = (sparse_idx m.m_sparse k2).1 := by
  cases h : sparse_find m.m_sparse k with
  | some j => rw [contains_snd_found m k j h]
  | none =>
    rw [contains_snd_none m k h]
    cases h2 : sparse_find m.m_sparse k2 with
    | some j2 =>
      show (sparse_idx (m.m_sparse ++ [(k, 0)]) k2).1 = _
      rw [sparse_idx_of_found _ _ _ (sparse_find_append_some _ _ _ _ h2),
        sparse_idx_of_found _ _ _ h2]
    | none =>
      show (sparse_idx (m.m_sparse ++ [(k, 0)]) k2).1 = _
      by_cases h3 : k2 = k
      · subst h3
        have hfa : sparse_find (m.m_sparse ++ [(k2, 0)]) k2 = some 0 := by
          rw [sparse_find_append_none _ _ _ h2]
          simp [sparse_find]
        rw [sparse_idx_of_found _ _ _ hfa]
        simp [sparse_idx, h2]
      · have h4 : sparse_find (m.m_sparse ++ [(k, 0)]) k2 = none := by
          rw [sparse_find_append_none _ _ _ h2]
          simp [sparse_find, Ne.symm h3]
        simp [sparse_idx, h2, h4]

theorem contains_fst_stable (m : atomic_sparse_map K V) (k k2 : K) :
    ((m.contains k).2.contains k2).1 = (m.contains k2).1 := by
  rw [contains_fst_def, contains_fst_def, sparse_idx_fst_stable m k k2]
  rfl

theorem get_snd_stable (m : atomic_sparse_map K V) (k k2 : K) :
    ((m.contains k).2.get k2).2 = (m.get k2).2 := by
  cases hc : (m.contains k2).1 with
  | true =>
    have hc2 : ((m.contains k).2.contains k2).1 = true := by
      rw [contains_fst_stable, hc]
    rw [get_snd_true _ _ hc2, get_snd_true _ _ hc, sparse_idx_fst_stable m k k2]
    rfl
  | false =>
    have hc2 : ((m.contains k).2.contains k2).1 = false := by
      rw [contains_fst_stable, hc]
    rw [get_snd_false _ _ hc2, get_snd_false _ _ hc]

theorem insert_dup (m : atomic_sparse_map K V) (k : K) (v : V) (i : Nat)
    (hfind : sparse_find m.m_sparse k = some i) (hi : i < m.m_size)
    (hk : m.m_dense_key.getD i default = k) :
    m.insert k v = (m, m.m_size, false) := by
  have hc : (m.contains k).1 = true := by
    rw [contains_fst_found m k i hfind, decide_eq_true hi, decide_eq_true hk]
    rfl
  have hsnd := contains_snd_found m k i hfind
  simp only [atomic_sparse_map.insert, hc, hsnd]
  rfl

theorem erase_absent (m : atomic_sparse_map K V) (k : K)
    (hc : (m.contains k).1 = false) :
    m.erase k = ((m.contains k).2, false) := by
  simp only [atomic_sparse_map.erase, hc]
  rfl

theorem contains_fst_found_not_lt (m : atomic_sparse_map K V) (k : K) (j : Nat)
    (h : sparse_find m.m_sparse k = some j) (hj : ¬ j < m.m_size) :
    (m.contains k).1 = false := by
  rw [contains_fst_found m k j h, decide_eq_false hj, Bool.false_and]

theorem contains_fst_found_key_ne (m : atomic_sparse_map K V) (k : K) (j : Nat)
    (h : sparse_find m.m_sparse k = some j)
    (hj : m.m_dense_key.getD j default ≠ k) :
    (m.contains k).1 = false := by
  rw [contains_fst_found m k j h, decide_eq_false hj, Bool.and_false]

theorem erase_present_spec (m : atomic_sparse_map K V) (k : K) (i : Nat)
    (hwf : WF m)
    (hfind : sparse_find m.m_sparse k = some i) (hi : i < m.m_size)
    (hk : m.m_dense_key.getD i default = k) :
    (m.erase k).2 = true ∧
    (m.erase k).1.m_size = m.m_size - 1 ∧
    (m.erase k).1.m_capacity = m.m_capacity ∧
    (m.erase k).1.m_dense_key.getD i default = m.m_dense_key.getD (m.m_size - 1) default ∧
    (m.erase k).1.m_dense_value.getD i default =
      m.m_dense_value.getD (m.m_size - 1) default ∧
    sparse_find (m.erase k).1.m_sparse (m.m_dense_key.getD (m.m_size - 1) default) =
      some i ∧
    ((m.erase k).1.contains k).1 = false ∧
    WF (m.erase k).1 ∧
    (m.m_dense_key.getD (m.m_size - 1) default ≠ k →
      ((m.erase k).1.get (m.m_dense_key.getD (m.m_size - 1) default)).2 =
        Except.ok (m.m_dense_value.getD (m.m_size - 1) default) ∧
      (m.get (m.m_dense_key.getD (m.m_size - 1) default)).2 =
        Except.ok (m.m_dense_value.getD (m.m_size - 1) default)) := by
  have hc : (m.contains k).1 = true := by
    rw [contains_fst_found m k i hfind, decide_eq_true hi, decide_eq_true hk]
    rfl
  have hsnd : (m.contains k).2 = m := contains_snd_found m k i hfind
  have hidx : sparse_idx m.m_sparse k = (i, m.m_sparse) := sparse_idx_of_found _ _ _ hfind
  have hlenk : m.m_dense_key.length = m.m_capacity := hwf.2.1.symm
  have hlenv : m.m_dense_value.length = m.m_capacity := hwf.1.symm
  have hsz : m.m_size ≤ m.m_capacity := hwf.2.2.1
  have hdklast : (m.m_dense_key.set i (m.m_dense_key.getD (m.m_size - 1) default)).getD
      (m.m_size - 1) default = m.m_dense_key.getD (m.m_size - 1) default := by
    by_cases he : i = m.m_size - 1
    · subst he
      exact list_getD_set_self _ _ _ _ (by omega)
    · exact list_getD_set_ne _ _ _ _ _ he
  have her : m.erase k =
      ({ m with
          m_dense_value := m.m_dense_value.set i (m.m_dense_value.getD (m.m_size - 1) default)
          m_dense_key := m.m_dense_key.set i (m.m_dense_key.getD (m.m_size - 1) default)
          m_sparse := sparse_set m.m_sparse (m.m_dense_key.getD (m.m_size - 1) default) i
          m_size := m.m_size - 1 }, true) := by
    simp only [atomic_sparse_map.erase, hc, hsnd, hidx, if_true]
    rw [hdklast]
  have hlk_slot : sparse_find m.m_sparse (m.m_dense_key.getD (m.m_size - 1) default) =
      some (m.m_size - 1) := hwf.2.2.2 (m.m_size - 1) (by omega)
  have hik : m.m_dense_key.getD (m.m_size - 1) default = k → i = m.m_size - 1 := by
    intro he
    rw [he, hfind] at hlk_slot
    exact Option.some.inj hlk_slot
  have hdk_i : (m.m_dense_key.set i (m.m_dense_key.getD (m.m_size - 1) default)).getD
      i default = m.m_dense_key.getD (m.m_size - 1) default :=
    list_getD_set_self _ _ _ _ (by omega)
  have hdv_i : (m.m_dense_value.set i (m.m_dense_value.getD (m.m_size - 1) default)).getD
      i default = m.m_dense_value.getD (m.m_size - 1) default :=
    list_getD_set_self _ _ _ _ (by omega)
  have hsp_lk : sparse_find
      (sparse_set m.m_sparse (m.m_dense_key.getD (m.m_size - 1) default) i)
      (m.m_dense_key.getD (m.m_size - 1) default) = some i :=
    sparse_find_set_self _ _ _
  have hsp_k : sparse_find
      (sparse_set m.m_sparse (m.m_dense_key.getD (m.m_size - 1) default) i) k =
      some i := by
    by_cases hlkk : m.m_dense_key.getD (m.m_size - 1) default = k
    · rw [← hlkk]
      exact hsp_lk
    · rw [sparse_find_set_ne _ _ _ _ (fun e => hlkk e.symm)]
      exact hfind
  have hwfe : WF (m.erase k).1 := by
    rw [her]
    refine ⟨?_, ?_, ?_, ?_⟩
    · show m.m_capacity = (m.m_dense_value.set i _).length
      rw [List.length_set]
      exact hwf.1
    · show m.m_capacity = (m.m_dense_key.set i _).length
      rw [List.length_set]
      exact hwf.2.1
    · show m.m_size - 1 ≤ m.m_capacity
      omega
    · intro i2 hi2
      have hi2b : i2 < m.m_size - 1 := hi2
      show sparse_find (sparse_set m.m_sparse (m.m_dense_key.getD (m.m_size - 1) default) i)
          ((m.m_dense_key.set i (m.m_dense_key.getD (m.m_size - 1) default)).getD
            i2 default) = some i2
      by_cases he2 : i2 = i
      · subst he2
        rw [hdk_i]
        exact hsp_lk
      · rw [list_getD_set_ne _ _ _ _ _ (fun e => he2 e.symm)]
        have h4 := hwf.2.2.2 i2 (by omega)
        have hne3 : m.m_dense_key.getD i2 default ≠
            m.m_dense_key.getD (m.m_size - 1) default := by
          intro he
          rw [he, hlk_slot] at h4
          have := Option.some.inj h4
          omega
        rw [sparse_find_set_ne _ _ _ _ hne3]
        exact h4
  have hcf : ((m.erase k).1.contains k).1 = false := by
    rw [her]
    by_cases hlkk : m.m_dense_key.getD (m.m_size - 1) default = k
    · refine contains_fst_found_not_lt _ k i hsp_k ?_
      show ¬ i < m.m_size - 1
      have := hik hlkk
      omega
    · refine contains_fst_found_key_ne _ k i hsp_k ?_
      show (m.m_dense_key.set i (m.m_dense_key.getD (m.m_size - 1) default)).getD
          i default ≠ k
      rw [hdk_i]
      exact hlkk
  have hgets : m.m_dense_key.getD (m.m_size - 1) default ≠ k →
      ((m.erase k).1.get (m.m_dense_key.getD (m.m_size - 1) default)).2 =
        Except.ok (m.m_dense_value.getD (m.m_size - 1) default) ∧
      (m.get (m.m_dense_key.getD (m.m_size - 1) default)).2 =
        Except.ok (m.m_dense_value.getD (m.m_size - 1) default) := by
    intro hlkk
    have hine : i ≠ m.m_size - 1 := by
      intro he
      apply hlkk
      rw [← he]
      exact hk
    constructor
    · rw [her]
      have hgp := get_present
        ({ m with
            m_dense_value := m.m_dense_value.set i (m.m_dense_value.getD (m.m_size - 1) default)
            m_dense_key := m.m_dense_key.set i (m.m_dense_key.getD (m.m_size - 1) default)
            m_sparse := sparse_set m.m_sparse (m.m_dense_key.getD (m.m_size - 1) default) i
            m_size := m.m_size - 1 })
        (m.m_dense_key.getD (m.m_size - 1) default) i
        hsp_lk
        (by show i < m.m_size - 1; omega)
        (by
          show (m.m_dense_key.set i (m.m_dense_key.getD (m.m_size - 1) default)).getD
            i default = m.m_dense_key.getD (m.m_size - 1) default
          exact hdk_i)
      rw [hgp.2]
      show Except.ok ((m.m_dense_value.set i
          (m.m_dense_value.getD (m.m_size - 1) default)).getD i default) = _
      rw [hdv_i]
    · have hgp := get_present m (m.m_dense_key.getD (m.m_size - 1) default)
        (m.m_size - 1) hlk_slot (by omega) rfl
      exact hgp.2
  refine ⟨?_, ?_, ?_, ?_, ?_, ?_, hcf, hwfe, hgets⟩
  · rw [her]
  · rw [her]
  · rw [her]
  · rw [her]
    exact hdk_i
  · rw [her]
    exact hdv_i
  · rw [her]
    exact hsp_lk

theorem wf_insert (m : atomic_sparse_map K V) (k : K) (v : V) (hwf : WF m) :
    WF (m.insert k v).1 := by
  cases hc : (m.contains k).1 with
  | false => exact (insert_fresh_spec m k v hwf hc).2.2.2.2.2.2.2
  | true =>
    obtain ⟨i, hfind, hi, hk⟩ := (contains_fst_true_iff m k hwf).mp hc
    rw [insert_dup m k v i hfind hi hk]
    exact hwf

theorem wf_emplace (m : atomic_sparse_map K V) (k : K) (v : V) (hwf : WF m) :
    WF (m.emplace k v).1 := by
  rw [emplace_eq_insert]
  exact wf_insert m k v hwf

theorem wf_opIndex (m : atomic_sparse_map K V) (k : K) (hwf : WF m) :
    WF (m.opIndex k).1 := by
  cases hc : (m.contains k).1 with
  | false =>
    rw [(opIndex_fresh_spec m k hwf hc).1]
    exact wf_insert m k default hwf
  | true =>
    obtain ⟨i, hfind, hi, hk⟩ := (contains_fst_true_iff m k hwf).mp hc
    rw [opIndex_present m k i hfind hi hk]
    exact hwf

theorem wf_get (m : atomic_sparse_map K V) (k : K) (hwf : WF m) :
    WF (m.get k).1 := by
  rw [get_fst_state]
  exact wf_contains m k hwf

theorem wf_erase (m : atomic_sparse_map K V) (k : K) (hwf : WF m) :
    WF (m.erase k).1 := by
  cases hc : (m.contains k).1 with
  | false =>
    rw [erase_absent m k hc]
    exact wf_contains m k hwf
  | true =>
    obtain ⟨i, hfind, hi, hk⟩ := (contains_fst_true_iff m k hwf).mp hc
    exact (erase_present_spec m k i hwf hfind hi hk).2.2.2.2.2.2.2.1

theorem insert_capacity_ge (m : atomic_sparse_map K V) (k : K) (v : V) :
    m.m_capacity ≤ (m.insert k v).1.m_capacity := by
  cases hc : (m.contains k).1 with
  | true =>
    simp only [atomic_sparse_map.insert, hc, if_true]
    exact Nat.le_refl _
  | false =>
    simp only [atomic_sparse_map.insert, hc, Bool.false_eq_true, if_false]
    by_cases hge : (m.contains k).2.m_size ≥ (m.contains k).2.m_capacity
    · show m.m_capacity ≤
        (if (m.contains k).2.m_size ≥ (m.contains k).2.m_capacity then
            (m.contains k).2.reserve ((m.contains k).2.m_size + 1)
          else (m.contains k).2).m_capacity
      rw [if_pos hge]
      exact reserve_capacity_ge ((m.contains k).2) ((m.contains k).2.m_size + 1)
    · show m.m_capacity ≤
        (if (m.contains k).2.m_size ≥ (m.contains k).2.m_capacity then
            (m.contains k).2.reserve ((m.contains k).2.m_size + 1)
          else (m.contains k).2).m_capacity
      rw [if_neg hge]
      exact Nat.le_refl _

theorem opIndex_capacity_ge (m : atomic_sparse_map K V) (k : K) :
    m.m_capacity ≤ (m.opIndex k).1.m_capacity := by
  cases hc : (m.contains k).1 with
  | true =>
    simp only [atomic_sparse_map.opIndex, hc, if_true]
    exact Nat.le_refl _
  | false =>
    simp only [atomic_sparse_map.opIndex, hc, Bool.false_eq_true, if_false]
    by_cases hge : (m.contains k).2.m_size ≥ (m.contains k).2.m_capacity
    · show m.m_capacity ≤
        (if (m.contains k).2.m_size ≥ (m.contains k).2.m_capacity then
            (m.contains k).2.reserve ((m.contains k).2.m_size + 1)
          else (m.contains k).2).m_capacity
      rw [if_pos hge]
      exact reserve_capacity_ge ((m.contains k).2) ((m.contains k).2.m_size + 1)
    · show m.m_capacity ≤
        (if (m.contains k).2.m_size ≥ (m.contains k).2.m_capacity then
            (m.contains k).2.reserve ((m.contains k).2.m_size + 1)
          else (m.contains k).2).m_capacity
      rw [if_neg hge]
      exact Nat.le_refl _

theorem erase_capacity (m : atomic_sparse_map K V) (k : K) :
    (m.erase k).1.m_capacity = m.m_capacity := by
  cases hc : (m.contains k).1 with
  | true =>
    simp only [atomic_sparse_map.erase, hc, if_true]
    rfl
  | false =>
    rw [erase_absent m k hc]
    rfl

theorem contains_clear_false (m : atomic_sparse_map K V) (k : K) :
    (m.clear.contains k).1 = false := by
  rw [contains_fst_def]
  have h : decide ((sparse_idx m.clear.m_sparse k).1 < m.clear.m_size) = false := by
    apply decide_eq_false
    show ¬ (sparse_idx m.clear.m_sparse k).1 < 0
    omega
  rw [h, Bool.false_and]

theorem contains_const_clear_false (m : atomic_sparse_map K V) (k : K) :
    m.clear.contains_const k = false := by
  cases h : sparse_find m.clear.m_sparse k with
  | none => simp [contains_const, h]
  | some i =>
    simp only [contains_const, h]
    rw [decide_eq_false (show ¬ i < m.clear.m_size from by
      show ¬ i < 0
      omega), Bool.false_and]

theorem insert_locks_exclusive (m : atomic_sparse_map K V) (k : K)
    (hc : (m.contains k).1 = false) :
    LockMode.exclusive ∈ insert_locks m k := by
  simp only [insert_locks, hc, Bool.false_eq_true, if_false, contains_locks]
  simp

theorem erase_locks_exclusive (m : atomic_sparse_map K V) (k : K)
    (hc : (m.contains k).1 = true) :
    LockMode.exclusive ∈ erase_locks m k := by
  simp only [erase_locks, hc, if_true, contains_locks]
  simp

theorem reserve_locks_exclusive (m : atomic_sparse_map K V) (n : Nat)
    (h : n > m.m_capacity) :
    LockMode.exclusive ∈ reserve_locks m n := by
  simp only [reserve_locks, if_pos h]
  simp

theorem insert_fresh_sparse_len (m : atomic_sparse_map K V) (k : K) (v : V)
    (hns : sparse_find m.m_sparse k = none) (hc : (m.contains k).1 = false) :
    (m.insert k v).1.m_sparse.length = m.m_sparse.length + 1 := by
  have hsnd := contains_snd_none m k hns
  have hsp : (m.insert k v).1.m_sparse =
      sparse_set (m.m_sparse ++ [(k, 0)]) k
        (if (m.contains k).2.m_size ≥ (m.contains k).2.m_capacity then
            (m.contains k).2.reserve ((m.contains k).2.m_size + 1)
          else (m.contains k).2).m_size := by
    simp only [atomic_sparse_map.insert, hc, Bool.false_eq_true, if_false]
    show sparse_set
        (if (m.contains k).2.m_size ≥ (m.contains k).2.m_capacity then
            (m.contains k).2.reserve ((m.contains k).2.m_size + 1)
          else (m.contains k).2).m_sparse k _ = _
    congr 1
    by_cases hge : (m.contains k).2.m_size ≥ (m.contains k).2.m_capacity
    · rw [if_pos hge, reserve_sparse, hsnd]
    · rw [if_neg hge, hsnd]
  rw [hsp, sparse_set_length_of_found]
  · simp
  · rw [sparse_find_append_none _ _ _ hns]
    simp [sparse_find]

theorem contains_sparse_len (m : atomic_sparse_map K V) (k : K)
    (hns : sparse_find m.m_sparse k = none) :
    (m.contains k).2.m_sparse = m.m_sparse ++ [(k, 0)] ∧
    (m.contains k).2.m_sparse.length = m.m_sparse.length + 1 := by
  have h := contains_snd_none m k hns
  rw [h]
  simp

end atomic_sparse_map

namespace atomic_sparse_map

variable {K V : Type} [DecidableEq K] [Inhabited K] [Inhabited V]

theorem applyOp_capacity_ge (o : Op K V) (m : atomic_sparse_map K V) :
    m.m_capacity ≤ (applyOp o m).m_capacity := by
  cases o with
  | insert k v => exact insert_capacity_ge m k v
  | emplace k v =>
    show m.m_capacity ≤ (m.emplace k v).1.m_capacity
    rw [emplace_eq_insert]
    exact insert_capacity_ge m k v
  | opIndex k => exact opIndex_capacity_ge m k
  | erase k =>
    show m.m_capacity ≤ (m.erase k).1.m_capacity
    rw [erase_capacity]
  | clear => exact Nat.le_refl _
  | reserve n => exact reserve_capacity_ge m n
  | contains k => exact Nat.le_of_eq (contains_snd_capacity m k).symm
  | get k =>
    show m.m_capacity ≤ (m.get k).1.m_capacity
    rw [get_fst_state]
    exact Nat.le_of_eq (contains_snd_capacity m k).symm

theorem applyOps_capacity_ge (l : List (Op K V)) (m : atomic_sparse_map K V) :
    m.m_capacity ≤ (applyOps l m).m_capacity := by
  induction l generalizing m with
  | nil => exact Nat.le_refl _
  | cons o t ih => exact Nat.le_trans (applyOp_capacity_ge o m) (ih (applyOp o m))

theorem wf_applyOp (o : Op K V) (m : atomic_sparse_map K V) (hwf : WF m) :
    WF (applyOp o m) := by
  cases o with
  | insert k v => exact wf_insert m k v hwf
  | emplace k v => exact wf_emplace m k v hwf
  | opIndex k => exact wf_opIndex m k hwf
  | erase k => exact wf_erase m k hwf
  | clear => exact wf_clear m hwf
  | reserve n => exact wf_reserve m n hwf
  | contains k => exact wf_contains m k hwf
  | get k => exact wf_get m k hwf

theorem wf_applyOps (l : List (Op K V)) (m : atomic_sparse_map K V) (hwf : WF m) :
    WF (applyOps l m) := by
  induction l generalizing m with
  | nil => exact hwf
  | cons o t ih => exact ih (applyOp o m) (wf_applyOp o m hwf)

theorem contains_fst_false_of_none (m : atomic_sparse_map K V) (k : K)
    (hwf : WF m) (hns : sparse_find m.m_sparse k = none) :
    (m.contains k).1 = false := by
  cases hb : (m.contains k).1 with
  | false => rfl
  | true =>
    obtain ⟨i, hi, _, _⟩ := (contains_fst_true_iff m k hwf).mp hb
    rw [hns] at hi
    exact Option.noConfusion hi

theorem get_const_absent (m : atomic_sparse_map K V) (k : K)
    (h : m.contains_const k = false) :
    get_const m k =
      Except.error ("Sparse map does not contain this key and is non modifiable.") := by
  simp only [atomic_sparse_map.get_const, h, Bool.false_eq_true, if_false]

theorem opIndex_const_absent (m : atomic_sparse_map K V) (k : K)
    (h : m.contains_const k = false) :
    opIndex_const m k =
      Except.error ("Sparse map does not contain this key and is non modifiable.") := by
  simp only [atomic_sparse_map.opIndex_const, h, Bool.false_eq_true, if_false]

theorem get_const_found (m : atomic_sparse_map K V) (k : K) (i : Nat)
    (h : m.contains_const k = true) (hf : sparse_find m.m_sparse k = some i) :
    get_const m k = Except.ok (m.m_dense_value.getD i default) := by
  simp only [atomic_sparse_map.get_const, h, if_true, hf]

theorem opIndex_const_found (m : atomic_sparse_map K V) (k : K) (i : Nat)
    (h : m.contains_const k = true) (hf : sparse_find m.m_sparse k = some i) :
    opIndex_const m k = Except.ok (m.m_dense_value.getD i default) := by
  simp only [atomic_sparse_map.opIndex_const, h, if_true, hf]

end atomic_sparse_map

open atomic_sparse_map in
/-- C1: for every well-formed map state and every key k not currently
contained and every value v, insert(k, v) appends v and k to the dense
value/key arrays at index equal to the old size, records sparse[k] = old
size, increments size by exactly one, and returns the position of the new
entry together with the flag true; a subsequent get(k) yields v. -/
theorem spec_insert_fresh_roundtrip {K V : Type} [DecidableEq K] [Inhabited K]
    [Inhabited V] (m : atomic_sparse_map K V) (k : K) (v : V)
    (hwf : WF m) (hc : (m.contains k).1 = false) :
    (m.insert k v).2.2 = true ∧
    (m.insert k v).2.1 = m.m_size ∧
    (m.insert k v).1.m_size = m.m_size + 1 ∧
    (m.insert k v).1.m_dense_value.getD m.m_size default = v ∧
    (m.insert k v).1.m_dense_key.getD m.m_size default = k ∧
    sparse_find (m.insert k v).1.m_sparse k = some m.m_size ∧
    ((m.insert k v).1.get k).2 = Except.ok v := by
  obtain ⟨h1, h2, h3, h4, h5, h6, h7, h8⟩ := insert_fresh_spec m k v hwf hc
  refine ⟨h1, h2, h3, h4, h5, h6, ?_⟩
  have hg := get_present (m.insert k v).1 k m.m_size h6 (by omega) h5
  rw [hg.2, h4]

/-- Witness for C1 evaluated on a concrete map, key 7 and value 70. -/
theorem spec_insert_fresh_roundtrip_witness :
    (exMap.insert 7 70).2.2 = true ∧
    (exMap.insert 7 70).2.1 = exMap.m_size ∧
    (exMap.insert 7 70).1.m_size = exMap.m_size + 1 ∧
    (exMap.insert 7 70).1.m_dense_value.getD exMap.m_size default = 70 ∧
    (exMap.insert 7 70).1.m_dense_key.getD exMap.m_size default = 7 ∧
    sparse_find (exMap.insert 7 70).1.m_sparse 7 = some exMap.m_size ∧
    ((exMap.insert 7 70).1.get 7).2 = Except.ok 70 :=
  spec_insert_fresh_roundtrip exMap 7 70 (by decide) (by decide)

open atomic_sparse_map in
/-- C2: for every well-formed map containing key k at dense index i,
erase(k) overwrites the dense slot i (key and value) with the last live
entry, redirects the sparse entry of the relocated key to the freed index,
decrements size by one, and returns true; afterwards contains(k) is false,
and for the previously-last key (when distinct from k) get still yields its
original value. The statement covers the case where k occupies the last
dense slot (then i = size - 1 and the overwrite is the identity). -/
theorem spec_erase_swap_with_last {K V : Type} [DecidableEq K] [Inhabited K]
    [Inhabited V] (m : atomic_sparse_map K V) (k : K) (i : Nat)
    (hwf : WF m) (hfind : sparse_find m.m_sparse k = some i)
    (hi : i < m.m_size) (hk : m.m_dense_key.getD i default = k) :
    (m.erase k).2 = true ∧
    (m.erase k).1.m_size = m.m_size - 1 ∧
    (m.erase k).1.m_capacity = m.m_capacity ∧
    (m.erase k).1.m_dense_key.getD i default =
      m.m_dense_key.getD (m.m_size - 1) default ∧
    (m.erase k).1.m_dense_value.getD i default =
      m.m_dense_value.getD (m.m_size - 1) default ∧
    sparse_find (m.erase k).1.m_sparse (m.m_dense_key.getD (m.m_size - 1) default) =
      some i ∧
    ((m.erase k).1.contains k).1 = false ∧
    (m.m_dense_key.getD (m.m_size - 1) default ≠ k →
      ((m.erase k).1.get (m.m_dense_key.getD (m.m_size - 1) default)).2 =
        Except.ok (m.m_dense_value.getD (m.m_size - 1) default) ∧
      (m.get (m.m_dense_key.getD (m.m_size - 1) default)).2 =
        Except.ok (m.m_dense_value.getD (m.m_size - 1) default)) := by
  obtain ⟨h1, h2, h3, h4, h5, h6, h7, _, h9⟩ := erase_present_spec m k i hwf hfind hi hk
  exact ⟨h1, h2, h3, h4, h5, h6, h7, h9⟩

/-- Witness for C2: erase key 2 (dense index 1) of the concrete map; the
previously-last key is 3 with value 30. -/
theorem spec_erase_swap_with_last_witness :
    (exMap.erase 2).2 = true ∧
    (exMap.erase 2).1.m_size = exMap.m_size - 1 ∧
    (exMap.erase 2).1.m_capacity = exMap.m_capacity ∧
    (exMap.erase 2).1.m_dense_key.getD 1 default =
      exMap.m_dense_key.getD (exMap.m_size - 1) default ∧
    (exMap.erase 2).1.m_dense_value.getD 1 default =
      exMap.m_dense_value.getD (exMap.m_size - 1) default ∧
    sparse_find (exMap.erase 2).1.m_sparse
      (exMap.m_dense_key.getD (exMap.m_size - 1) default) = some 1 ∧
    ((exMap.erase 2).1.contains 2).1 = false ∧
    (exMap.m_dense_key.getD (exMap.m_size - 1) default ≠ 2 →
      ((exMap.erase 2).1.get (exMap.m_dense_key.getD (exMap.m_size - 1) default)).2 =
        Except.ok (exMap.m_dense_value.getD (exMap.m_size - 1) default) ∧
      (exMap.get (exMap.m_dense_key.getD (exMap.m_size - 1) default)).2 =
        Except.ok (exMap.m_dense_value.getD (exMap.m_size - 1) default)) :=
  spec_erase_swap_with_last exMap 2 1 (by decide) (by decide) (by decide) (by decide)

open atomic_sparse_map in
/-- C3: duplicate-key insert and emplace are no-ops returning the end
position with flag false and leaving the state (hence the existing entry and
every mapping) unchanged, and absent-key erase is a no-op returning false
that leaves size, capacity and every mapping unchanged, so a second erase of
the same key also returns false. -/
theorem spec_duplicate_insert_absent_erase_noop {K V : Type} [DecidableEq K]
    [Inhabited K] [Inhabited V] (m : atomic_sparse_map K V) (k1 k2 : K)
    (v2 : V) (i : Nat)
    (hfind : sparse_find m.m_sparse k1 = some i) (hi : i < m.m_size)
    (hk : m.m_dense_key.getD i default = k1)
    (hc2 : (m.contains k2).1 = false) :
    m.insert k1 v2 = (m, m.m_size, false) ∧
    m.emplace k1 v2 = (m, m.m_size, false) ∧
    ((m.insert k1 v2).1.get k1).2 = Except.ok (m.m_dense_value.getD i default) ∧
    (m.erase k2).2 = false ∧
    (m.erase k2).1.m_size = m.m_size ∧
    (m.erase k2).1.m_capacity = m.m_capacity ∧
    (∀ k3, ((m.erase k2).1.contains k3).1 = (m.contains k3).1) ∧
    (∀ k3, ((m.erase k2).1.get k3).2 = (m.get k3).2) ∧
    ((m.erase k2).1.erase k2).2 = false := by
  have hdup := insert_dup m k1 v2 i hfind hi hk
  have habs := erase_absent m k2 hc2
  have hstill : ((m.contains k2).2.contains k2).1 = false := by
    rw [contains_fst_stable]
    exact hc2
  refine ⟨hdup, ?_, ?_, ?_, ?_, ?_, ?_, ?_, ?_⟩
  · rw [emplace_eq_insert]
    exact hdup
  · rw [hdup]
    exact (get_present m k1 i hfind hi hk).2
  · rw [habs]
  · rw [habs]
    exact contains_snd_size m k2
  · rw [habs]
    exact contains_snd_capacity m k2
  · intro k3
    rw [habs]
    exact contains_fst_stable m k2 k3
  · intro k3
    rw [habs]
    exact get_snd_stable m k2 k3
  · rw [habs]
    rw [erase_absent ((m.contains k2).2) k2 hstill]

/-- Witness for C3: key 2 is contained in the concrete map with value 20 at
dense index 1, key 7 is absent. -/
theorem spec_duplicate_insert_absent_erase_noop_witness :
    exMap.insert 2 99 = (exMap, exMap.m_size, false) ∧
    exMap.emplace 2 99 = (exMap, exMap.m_size, false) ∧
    ((exMap.insert 2 99).1.get 2).2 = Except.ok (exMap.m_dense_value.getD 1 default) ∧
    (exMap.erase 7).2 = false ∧
    (exMap.erase 7).1.m_size = exMap.m_size ∧
    (exMap.erase 7).1.m_capacity = exMap.m_capacity ∧
    (∀ k3, ((exMap.erase 7).1.contains k3).1 = (exMap.contains k3).1) ∧
    (∀ k3, ((exMap.erase 7).1.get k3).2 = (exMap.get k3).2) ∧
    ((exMap.erase 7).1.erase 7).2 = false :=
  spec_duplicate_insert_absent_erase_noop exMap 2 7 99 1
    (by decide) (by decide) (by decide) (by decide)

open atomic_sparse_map in
/-- C4: on a well-formed state, get(k) in both its mutable and immutable
forms and the const index-operator signal an out-of-range failure for an
absent key and never insert a mapping (size unchanged, contains(k) still
false); for a contained key, get(k) returns the value of the entry without
modifying the map. -/
theorem spec_get_absent_out_of_range {K V : Type} [DecidableEq K]
    [Inhabited K] [Inhabited V] (m : atomic_sparse_map K V) (k : K)
    (hwf : WF m) :
    ((m.contains k).1 = false →
      (m.get k).2 = Except.error ("Sparse map does not contain this key.") ∧
      (m.get k).1.m_size = m.m_size ∧
      ((m.get k).1.contains k).1 = false ∧
      get_const m k =
        Except.error ("Sparse map does not contain this key and is non modifiable.") ∧
      opIndex_const m k =
        Except.error ("Sparse map does not contain this key and is non modifiable.")) ∧
    (∀ i, sparse_find m.m_sparse k = some i → i < m.m_size →
      m.m_dense_key.getD i default = k →
      (m.get k).1 = m ∧
      (m.get k).2 = Except.ok (m.m_dense_value.getD i default) ∧
      get_const m k = Except.ok (m.m_dense_value.getD i default) ∧
      opIndex_const m k = Except.ok (m.m_dense_value.getD i default)) := by
  constructor
  · intro hc
    have hcc : m.contains_const k = false := by
      rw [contains_const_eq_contains m k hwf, hc]
    refine ⟨get_snd_false m k hc, ?_, ?_,
      get_const_absent m k hcc, opIndex_const_absent m k hcc⟩
    · rw [get_fst_state]
      exact contains_snd_size m k
    · rw [get_fst_state, contains_fst_stable]
      exact hc
  · intro i hfind hi hk
    have hc : (m.contains k).1 = true := by
      rw [contains_fst_found m k i hfind, decide_eq_true hi, decide_eq_true hk]
      rfl
    have hcc : m.contains_const k = true := by
      rw [contains_const_eq_contains m k hwf, hc]
    have hgp := get_present m k i hfind hi hk
    exact ⟨hgp.1, hgp.2, get_const_found m k i hcc hfind,
      opIndex_const_found m k i hcc hfind⟩

/-- Witness for C4: key 7 is absent from the concrete map, key 2 is present
with value 20 at dense index 1. -/
theorem spec_get_absent_out_of_range_witness :
    ((exMap.get 7).2 = Except.error ("Sparse map does not contain this key.") ∧
      (exMap.get 7).1.m_size = exMap.m_size ∧
      ((exMap.get 7).1.contains 7).1 = false ∧
      atomic_sparse_map.get_const exMap 7 =
        Except.error ("Sparse map does not contain this key and is non modifiable.") ∧
      atomic_sparse_map.opIndex_const exMap 7 =
        Except.error ("Sparse map does not contain this key and is non modifiable.")) ∧
    ((exMap.get 2).1 = exMap ∧
      (exMap.get 2).2 = Except.ok (exMap.m_dense_value.getD 1 default) ∧
      atomic_sparse_map.get_const exMap 2 =
        Except.ok (exMap.m_dense_value.getD 1 default) ∧
      atomic_sparse_map.opIndex_const exMap 2 =
        Except.ok (exMap.m_dense_value.getD 1 default)) :=
  ⟨(spec_get_absent_out_of_range exMap 7 (by decide)).1 (by decide),
    (spec_get_absent_out_of_range exMap 2 (by decide)).2 1
      (by decide) (by decide) (by decide)⟩

open atomic_sparse_map in
/-- C5: on a well-formed state, the mutable index-operator applied to an
absent key inserts a default-constructed entry (size grows by one,
contains(k) becomes true) and returns the position of the new cell holding
the default value; applied to a contained key it inserts nothing and returns
the position and value of the existing cell, leaving the state unchanged. -/
theorem spec_opIndex_mutable {K V : Type} [DecidableEq K] [Inhabited K]
    [Inhabited V] (m : atomic_sparse_map K V) (k : K) (hwf : WF m) :
    ((m.contains k).1 = false →
      (m.opIndex k).1.m_size = m.m_size + 1 ∧
      ((m.opIndex k).1.contains k).1 = true ∧
      (m.opIndex k).2.1 = m.m_size ∧
      (m.opIndex k).2.2 = (default : V) ∧
      (m.opIndex k).1.m_dense_value.getD m.m_size default = (default : V)) ∧
    (∀ i, sparse_find m.m_sparse k = some i → i < m.m_size →
      m.m_dense_key.getD i default = k →
      m.opIndex k = (m, i, m.m_dense_value.getD i default)) := by
  constructor
  · intro hc
    obtain ⟨hstate, hpos, hval⟩ := opIndex_fresh_spec m k hwf hc
    obtain ⟨_, _, h3, h4, h5, h6, _, _⟩ := insert_fresh_spec m k (default : V) hwf hc
    refine ⟨?_, ?_, hpos, hval, ?_⟩
    · rw [hstate]
      exact h3
    · rw [hstate]
      rw [contains_fst_found _ k m.m_size h6,
        decide_eq_true (show m.m_size < (m.insert k (default : V)).1.m_size by omega),
        decide_eq_true h5]
      rfl
    · rw [hstate]
      exact h4
  · intro i hfind hi hk
    exact opIndex_present m k i hfind hi hk

/-- Witness for C5: absent key 7 and present key 2 on the concrete map. -/
theorem spec_opIndex_mutable_witness :
    ((exMap.opIndex 7).1.m_size = exMap.m_size + 1 ∧
      ((exMap.opIndex 7).1.contains 7).1 = true ∧
      (exMap.opIndex 7).2.1 = exMap.m_size ∧
      (exMap.opIndex 7).2.2 = (default : Nat) ∧
      (exMap.opIndex 7).1.m_dense_value.getD exMap.m_size default = (default : Nat)) ∧
    exMap.opIndex 2 = (exMap, 1, exMap.m_dense_value.getD 1 default) :=
  ⟨(spec_opIndex_mutable exMap 7 (by decide)).1 (by decide),
    (spec_opIndex_mutable exMap 2 (by decide)).2 1 (by decide) (by decide) (by decide)⟩

open atomic_sparse_map in
/-- C6: clear() sets size to 0 while leaving capacity, both dense arrays and
the sparse table untouched; afterwards contains(k) is false for every key
(in both overloads) and capacity equals its value from before the clear. -/
theorem spec_clear_frame {K V : Type} [DecidableEq K] [Inhabited K]
    [Inhabited V] (m : atomic_sparse_map K V) :
    m.clear.m_size = 0 ∧
    m.clear.m_capacity = m.m_capacity ∧
    m.clear.m_dense_value = m.m_dense_value ∧
    m.clear.m_dense_key = m.m_dense_key ∧
    m.clear.m_sparse = m.m_sparse ∧
    (∀ k, (m.clear.contains k).1 = false) ∧
    (∀ k, m.clear.contains_const k = false) :=
  ⟨rfl, rfl, rfl, rfl, rfl,
    fun k => contains_clear_false m k,
    fun k => contains_const_clear_false m k⟩

open atomic_sparse_map in
/-- C7: reserve(n) with n greater than the capacity resizes both dense
arrays to length n and sets the capacity to n; reserve(n) with n at most the
capacity changes nothing; and across every sequence of operations the
capacity never decreases. -/
theorem spec_reserve_growth_monotonic {K V : Type} [DecidableEq K]
    [Inhabited K] [Inhabited V] (m : atomic_sparse_map K V) (n : Nat)
    (ops : List (Op K V)) :
    (n > m.m_capacity →
      (m.reserve n).m_dense_value.length = n ∧
      (m.reserve n).m_dense_key.length = n ∧
      (m.reserve n).m_capacity = n) ∧
    (n ≤ m.m_capacity → m.reserve n = m) ∧
    m.m_capacity ≤ (applyOps ops m).m_capacity := by
  refine ⟨?_, ?_, applyOps_capacity_ge ops m⟩
  · intro h
    unfold atomic_sparse_map.reserve
    rw [if_pos h]
    exact ⟨vector_resize_length _ _ _, vector_resize_length _ _ _, rfl⟩
  · intro h
    unfold atomic_sparse_map.reserve
    rw [if_neg (by omega)]

/-- Witness for C7: grow the concrete map (capacity 3) to 5, observe the
no-op at 2, and run a concrete operation sequence. -/
theorem spec_reserve_growth_monotonic_witness :
    ((exMap.reserve 5).m_dense_value.length = 5 ∧
      (exMap.reserve 5).m_dense_key.length = 5 ∧
      (exMap.reserve 5).m_capacity = 5) ∧
    exMap.reserve 2 = exMap ∧
    exMap.m_capacity ≤
      (applyOps [Op.insert 7 70, Op.erase 1, Op.clear, Op.reserve 9] exMap).m_capacity :=
  ⟨(spec_reserve_growth_monotonic exMap 5 []).1 (by decide),
    (spec_reserve_growth_monotonic exMap 2 []).2.1 (by decide),
    (spec_reserve_growth_monotonic exMap 5
      [Op.insert 7 70, Op.erase 1, Op.clear, Op.reserve 9]).2.2⟩

open atomic_sparse_map in
/-- C8: on every well-formed (reachable) state, the non-const contains(k)
returns true exactly when k is live (its sparse entry is a dense index below
size whose dense-key slot holds k back), and the const overload returns the
same boolean as the non-const overload. -/
theorem spec_contains_iff_live {K V : Type} [DecidableEq K] [Inhabited K]
    [Inhabited V] (m : atomic_sparse_map K V) (k : K) (hwf : WF m) :
    ((m.contains k).1 = true ↔ isLive m k) ∧
    m.contains_const k = (m.contains k).1 :=
  ⟨contains_fst_true_iff m k hwf, contains_const_eq_contains m k hwf⟩

/-- Witness for C8 at a present key (2) and an absent key (7). -/
theorem spec_contains_iff_live_witness :
    (((exMap.contains 2).1 = true ↔ atomic_sparse_map.isLive exMap 2) ∧
      exMap.contains_const 2 = (exMap.contains 2).1) ∧
    (((exMap.contains 7).1 = true ↔ atomic_sparse_map.isLive exMap 7) ∧
      exMap.contains_const 7 = (exMap.contains 7).1) :=
  ⟨spec_contains_iff_live exMap 2 (by decide),
    spec_contains_iff_live exMap 7 (by decide)⟩

/-- C9 counterexample: the body of clear() is a single atomic release store
into m_size and constructs no readwrite_guard, so clear does not execute
under exclusive acquisition of the container lock, contrary to the claim
that all four structural mutations do. -/
theorem spec_mutations_locked_cex :
    ¬ (LockMode.exclusive ∈ (atomic_sparse_map.clear_locks : List LockMode)) := by
  decide

open atomic_sparse_map in
/-- C9 amended: insert on a fresh key, erase on a present key and a growing
reserve each acquire the exclusive writer lock, but clear acquires no lock
at all; under the resulting sequential ordering of mutations, every
operation sequence started in a well-formed state preserves the sparse/dense
invariant (for every live key k, sparse[k] is a valid dense index i below
size with denseKey[i] = k). -/
theorem spec_mutations_locked_invariant {K V : Type} [DecidableEq K]
    [Inhabited K] [Inhabited V] (m : atomic_sparse_map K V) (k k2 : K)
    (n : Nat) (ops : List (Op K V))
    (hck : (m.contains k).1 = false) (hck2 : (m.contains k2).1 = true)
    (hn : n > m.m_capacity) (hwf : WF m) :
    LockMode.exclusive ∈ insert_locks m k ∧
    LockMode.exclusive ∈ erase_locks m k2 ∧
    LockMode.exclusive ∈ reserve_locks m n ∧
    clear_locks = ([] : List LockMode) ∧
    WF (applyOps ops m) :=
  ⟨insert_locks_exclusive m k hck, erase_locks_exclusive m k2 hck2,
    reserve_locks_exclusive m n hn, rfl, wf_applyOps ops m hwf⟩

/-- Witness for C9 amended: fresh key 7, present key 2, reserve to 5 and a
concrete operation sequence on the concrete map. -/
theorem spec_mutations_locked_invariant_witness :
    LockMode.exclusive ∈ atomic_sparse_map.insert_locks exMap 7 ∧
    LockMode.exclusive ∈ atomic_sparse_map.erase_locks exMap 2 ∧
    LockMode.exclusive ∈ atomic_sparse_map.reserve_locks exMap 5 ∧
    atomic_sparse_map.clear_locks = ([] : List LockMode) ∧
    atomic_sparse_map.WF
      (applyOps [Op.insert 7 70, Op.erase 1, Op.opIndex 9, Op.clear, Op.reserve 6] exMap) :=
  spec_mutations_locked_invariant exMap 7 2 5
    [Op.insert 7 70, Op.erase 1, Op.opIndex 9, Op.clear, Op.reserve 6]
    (by decide) (by decide) (by decide) (by decide)

/-- C10 counterexample: calling insert (one of the operations the claim
quantifies over) with the never-seen key 1 on the empty map changes size
from 0 to 1 and makes contains(1) true, so the size-unchanged and
contains-still-false parts of the claim do not extend to insert. -/
theorem spec_sparse_side_effect_cex :
    ¬ ((((atomic_sparse_map.empty Nat Nat).insert 1 5).1.m_size =
          (atomic_sparse_map.empty Nat Nat).m_size) ∧
        ((((atomic_sparse_map.empty Nat Nat).insert 1 5).1.contains 1).1 = false)) := by
  decide

open atomic_sparse_map in
/-- C10 amended: on a well-formed state, calling the non-const contains with
a key that has no sparse entry default-inserts the entry sparse[k] = 0 and
returns false, growing the sparse-table entry count by one while size,
capacity and every live mapping stay unchanged and contains(k) stays false;
get and erase with such a key have exactly that net effect (plus their error
result), while insert, emplace and the mutable index-operator also grow the
sparse-table entry count by exactly one but then create a live mapping. -/
theorem spec_sparse_table_side_effect {K V : Type} [DecidableEq K]
    [Inhabited K] [Inhabited V] (m : atomic_sparse_map K V) (k : K) (v : V)
    (hwf : WF m) (hns : sparse_find m.m_sparse k = none) :
    (m.contains k).1 = false ∧
    (m.contains k).2.m_sparse = m.m_sparse ++ [(k, 0)] ∧
    (m.contains k).2.m_sparse.length = m.m_sparse.length + 1 ∧
    (m.contains k).2.m_size = m.m_size ∧
    (m.contains k).2.m_capacity = m.m_capacity ∧
    ((m.contains k).2.contains k).1 = false ∧
    (∀ k2, ((m.contains k).2.contains k2).1 = (m.contains k2).1) ∧
    (m.get k).1.m_sparse = m.m_sparse ++ [(k, 0)] ∧
    (m.get k).1.m_size = m.m_size ∧
    (m.get k).2 = Except.error ("Sparse map does not contain this key.") ∧
    (m.erase k).1.m_sparse = m.m_sparse ++ [(k, 0)] ∧
    (m.erase k).1.m_size = m.m_size ∧
    (m.erase k).2 = false ∧
    (m.insert k v).1.m_sparse.length = m.m_sparse.length + 1 ∧
    (m.emplace k v).1.m_sparse.length = m.m_sparse.length + 1 ∧
    (m.opIndex k).1.m_sparse.length = m.m_sparse.length + 1 := by
  have hc : (m.contains k).1 = false := contains_fst_false_of_none m k hwf hns
  have hsnd := contains_snd_none m k hns
  have habs := erase_absent m k hc
  refine ⟨hc, by rw [hsnd], ?_, contains_snd_size m k, contains_snd_capacity m k,
    ?_, ?_, ?_, ?_, get_snd_false m k hc, ?_, ?_, ?_, ?_, ?_, ?_⟩
  · rw [hsnd]
    simp
  · rw [contains_fst_stable]
    exact hc
  · intro k2
    exact contains_fst_stable m k k2
  · rw [get_fst_state, hsnd]
  · rw [get_fst_state]
    exact contains_snd_size m k
  · rw [habs, hsnd]
  · rw [habs]
    exact contains_snd_size m k
  · rw [habs]
  · exact insert_fresh_sparse_len m k v hns hc
  · rw [emplace_eq_insert]
    exact insert_fresh_sparse_len m k v hns hc
  · rw [(opIndex_fresh_spec m k hwf hc).1]
    exact insert_fresh_sparse_len m k (default : V) hns hc

/-- Witness for C10 amended: never-seen key 1 and value 5 on the empty map. -/
theorem spec_sparse_table_side_effect_witness :
    ((atomic_sparse_map.empty Nat Nat).contains 1).1 = false ∧
    ((atomic_sparse_map.empty Nat Nat).contains 1).2.m_sparse =
      (atomic_sparse_map.empty Nat Nat).m_sparse ++ [(1, 0)] ∧
    ((atomic_sparse_map.empty Nat Nat).contains 1).2.m_sparse.length =
      (atomic_sparse_map.empty Nat Nat).m_sparse.length + 1 ∧
    ((atomic_sparse_map.empty Nat Nat).contains 1).2.m_size =
      (atomic_sparse_map.empty Nat Nat).m_size ∧
    ((atomic_sparse_map.empty Nat Nat).contains 1).2.m_capacity =
      (atomic_sparse_map.empty Nat Nat).m_capacity ∧
    (((atomic_sparse_map.empty Nat Nat).contains 1).2.contains 1).1 = false ∧
    (∀ k2, (((atomic_sparse_map.empty Nat Nat).contains 1).2.contains k2).1 =
      ((atomic_sparse_map.empty Nat Nat).contains k2).1) ∧
    ((atomic_sparse_map.empty Nat Nat).get 1).1.m_sparse =
      (atomic_sparse_map.empty Nat Nat).m_sparse ++ [(1, 0)] ∧
    ((atomic_sparse_map.empty Nat Nat).get 1).1.m_size =
      (atomic_sparse_map.empty Nat Nat).m_size ∧
    ((atomic_sparse_map.empty Nat Nat).get 1).2 =
      Except.error ("Sparse map does not contain this key.") ∧
    ((atomic_sparse_map.empty Nat Nat).erase 1).1.m_sparse =
      (atomic_sparse_map.empty Nat Nat).m_sparse ++ [(1, 0)] ∧
    ((atomic_sparse_map.empty Nat Nat).erase 1).1.m_size =
      (atomic_sparse_map.empty Nat Nat).m_size ∧
    ((atomic_sparse_map.empty Nat Nat).erase 1).2 = false ∧
    ((atomic_sparse_map.empty Nat Nat).insert 1 5).1.m_sparse.length =
      (atomic_sparse_map.empty Nat Nat).m_sparse.length + 1 ∧
    ((atomic_sparse_map.empty Nat Nat).emplace 1 5).1.m_sparse.length =
      (atomic_sparse_map.empty Nat Nat).m_sparse.length + 1 ∧
    ((atomic_sparse_map.empty Nat Nat).opIndex 1).1.m_sparse.length =
      (atomic_sparse_map.empty Nat Nat).m_sparse.length + 1 :=
  spec_sparse_table_side_effect (atomic_sparse_map.empty Nat Nat) 1 5
    (by decide) (by decide)
